import Mathlib

/-!
Shallow embedding of the core of `util/pcf2go.cpp` (a PCF bitmap font to Go
source converter) together with proofs about the claims of its specification.
Byte streams are modelled as `List Nat` whose elements are the bytes delivered
by `fgetc`; machine `int16`/`uint16` arithmetic is modelled on `Int` with the
16-bit truncation made explicit exactly where the source performs an implicit
narrowing conversion.
-/

/-- Truncation of a mathematical integer to a signed 16-bit value.  Models the
C++ narrowing conversion of an `int` expression to an `int16` lvalue or return
value (two's complement wrap-around). -/
def toInt16 (n : Int) : Int := (n + 32768) % 65536 - 32768

/-- Glyph metric record, from `struct metric_t` (pcf2go.cpp lines 84-120).
The five geometry fields are `int16` in the source and `attributes` is
`uint16`; they are carried as mathematical integers here, with truncation
applied where the source converts.  The `bitmaps`, `swidth` and `glyphName`
payload fields play no role in any claim about this record and are omitted. -/
structure metric_t where
  leftSideBearing : Int
  rightSideBearing : Int
  characterWidth : Int
  ascent : Int
  descent : Int
  attributes : Int
deriving DecidableEq

/-- Glyph width, from `metric_t::widthBits` (line 104):
`return rightSideBearing - leftSideBearing;` computed in `int` and narrowed
to the `int16` return type. -/
def metric_t.widthBits (m : metric_t) : Int :=
  toInt16 (m.rightSideBearing - m.leftSideBearing)

/-- Glyph height, from `metric_t::height` (line 106): `return ascent + descent;`
computed in `int` and narrowed to the `int16` return type. -/
def metric_t.height (m : metric_t) : Int :=
  toInt16 (m.ascent + m.descent)

/-- Row byte count before the `int16` narrowing, from `metric_t::bytesPerRow`
(lines 112-119).  The claims quantify over bit counts `bits ≥ 0`, so the
domain is `Nat`; on nonnegative values the source's `x >> 3` is `x / 8` and
its `x & ~(k-1)` is `x / k * k`. -/
def bytesPerRowNat (bits nbytes : Nat) : Nat :=
  if nbytes = 1 then (bits + 7) / 8
  else if nbytes = 2 then (bits + 15) / 8 / 2 * 2
  else if nbytes = 4 then (bits + 31) / 8 / 4 * 4
  else if nbytes = 8 then (bits + 63) / 8 / 8 * 8
  else 0

/-- `metric_t::bytesPerRow` (lines 112-119) including the narrowing of the
`int` computation to the `int16` return type. -/
def bytesPerRow (bits nbytes : Nat) : Int := toInt16 (bytesPerRowNat bits nbytes)

/-- One byte from the input stream, modelling `read_uint8` (lines 289-292):
`fgetc` yields the next byte (EOF is the fatal `unexpected eof` path, here
`none`), and the `(uint8)` cast keeps its low 8 bits. -/
def read_uint8 : List Nat → Option (Nat × List Nat)
  | [] => none
  | b :: rest => some (b % 256, rest)

/-- From `make_int16` (lines 298-304): `value = (a & 0xff) << 8 | (b & 0xff)`. -/
def make_int16 (a b : Nat) : Nat := (a % 256) * 256 + (b % 256)

/-- From `read_int16_big` / `read_int16_little` / `read_int16`
(lines 305-327), with the active section's endianness passed explicitly. -/
def read_int16 (little : Bool) (s : List Nat) : Option (Nat × List Nat) := do
  let (a, s) ← read_uint8 s
  let (b, s) ← read_uint8 s
  pure (if little then make_int16 b a else make_int16 a b, s)

/-- Full six-field metric decoder, from `read_metric` (lines 465-473).  Each
`read_int16()` result (an `int` in `[0, 65535]`) is assigned to an `int16`
field (narrowing), except `attributes`, whose `uint16` assignment is the
identity on that range. -/
def read_metric (little : Bool) (s : List Nat) : Option (metric_t × List Nat) := do
  let (v1, s) ← read_int16 little s
  let (v2, s) ← read_int16 little s
  let (v3, s) ← read_int16 little s
  let (v4, s) ← read_int16 little s
  let (v5, s) ← read_int16 little s
  let (v6, s) ← read_int16 little s
  pure (⟨toInt16 v1, toInt16 v2, toInt16 v3, toInt16 v4, toInt16 v5, (v6 : Int)⟩, s)

/-- Compressed metric decoder, from `read_compressed_metric` (lines 477-485):
five `(int16)read_uint8() - 0x80` fields and `attributes = 0`. -/
def read_compressed_metric (s : List Nat) : Option (metric_t × List Nat) :=
  match read_uint8 s with
  | none => none
  | some (b1, s) =>
    match read_uint8 s with
    | none => none
    | some (b2, s) =>
      match read_uint8 s with
      | none => none
      | some (b3, s) =>
        match read_uint8 s with
        | none => none
        | some (b4, s) =>
          match read_uint8 s with
          | none => none
          | some (b5, s) =>
            some (⟨(b1 : Int) - 128, (b2 : Int) - 128, (b3 : Int) - 128,
                   (b4 : Int) - 128, (b5 : Int) - 128, 0⟩, s)

/-- Table-of-contents entry, from `struct table_t` (lines 133-138).  The
section locator reads only the `type` and `offset` fields; the `format` and
`size` fields are never consulted by `seek` and are omitted here. -/
structure table_t where
  type : Int
  offset : Int
deriving DecidableEq

/-- Outcome of the section locator: found (with the new value of the
`read_bytes` cursor), not found (cursor unchanged), or the fatal
`error_invalid_exit("seek")` backward-seek abort. -/
inductive SeekResult where
  | found (readBytes : Int)
  | notFound (readBytes : Int)
  | fatalSeek
deriving DecidableEq

/-- Section locator, from `seek` (lines 431-447): scan the ToC in order for
the first entry of the requested type; on a match compute
`s = offset - read_bytes`, abort if `s < 0`, otherwise `skip(s)` (advancing
`read_bytes` by `s`) and report found. -/
def seek : List table_t → Int → Int → SeekResult
  | [], _, rb => SeekResult.notFound rb
  | t :: rest, ty, rb =>
    if t.type = ty then
      if t.offset - rb < 0 then SeekResult.fatalSeek
      else SeekResult.found (rb + (t.offset - rb))
    else seek rest ty rb

/-- From `check_int32_min` (lines 236-251): returns `true` when the run
continues (`min ≤ value`) and `false` for the fatal out-of-range exit. -/
def check_int32_min (value min : Int) : Bool := decide (min ≤ value)

/-- The Bitmaps-section count check at lines 923-924:
`check_int32_min("\t", "nBitmaps", nBitmaps, nMetrics)`; `true` means the
decode continues, `false` the fatal abort. -/
def bitmapsCountCheck (nMetrics nBitmaps : Int) : Bool :=
  check_int32_min nBitmaps nMetrics

/-- Property record, from `struct props_t` (lines 142-146).  The source keeps
a `union` of a string pointer and an `int32`; `get_property_value` reads only
the integer arm (a string-typed hit is the fatal mismatch path), so only the
integer payload is carried here. -/
structure props_t where
  name : String
  isStringProp : Bool
  intValue : Int
deriving DecidableEq

/-- Integer property lookup, from `get_property_value` (lines 581-598): first
name match wins; a string-typed match is the fatal
`error_invalid_exit("property_value")` (`none`); a miss returns `-1`. -/
def get_property_value : List props_t → String → Option Int
  | [], _ => some (-1)
  | p :: rest, nm =>
    if p.name = nm then
      if p.isStringProp then none else some p.intValue
    else get_property_value rest nm

/-- The branch condition at line 1063: after `rx = get_property_value
("RESOLUTION_X")`, the fallback resolution path is taken iff `rx <= 0`. -/
def usesResolutionFallback (props : List props_t) : Option Bool :=
  match get_property_value props "RESOLUTION_X" with
  | none => none
  | some rx => some (decide (rx ≤ 0))

/-- Truncation toward zero of a rational, modelling the C `(int)` cast of a
`double` value. -/
def ratTrunc (q : ℚ) : Int := if 0 ≤ q then ⌊q⌋ else ⌈q⌉

/-- Resolution selection from lines 1062-1066, with the source's `double`
arithmetic carried out exactly over `ℚ` (the literal `72.27` is `7227/100`):
`rx = get_property_value("RESOLUTION_X"); if (rx <= 0) rx =
(int)(get_property_value("RESOLUTION") / 100.0 * 72.27);`. -/
def computeRx (props : List props_t) : Option Int :=
  match get_property_value props "RESOLUTION_X" with
  | none => none
  | some rx =>
    if rx ≤ 0 then
      match get_property_value props "RESOLUTION" with
      | none => none
      | some r => some (ratTrunc ((r : ℚ) / 100 * ((7227 : ℚ) / 100)))
    else some rx

/-- Per-glyph fallback swidth from lines 1067-1073, `double` arithmetic over
`ℚ`: `p = get_property_value("POINT_SIZE") / 10.0;` and
`swidth = (int)(characterWidth / (rx / 72.27) / (p / 1000));`. -/
def computeSwidthFallback (props : List props_t) (characterWidth : Int) : Option Int :=
  match computeRx props with
  | none => none
  | some rx =>
    match get_property_value props "POINT_SIZE" with
    | none => none
    | some ps =>
      some (ratTrunc ((characterWidth : ℚ) / ((rx : ℚ) / ((7227 : ℚ) / 100)) /
        (((ps : ℚ) / 10) / 1000)))

/-- The property list of claim C6: integer `RESOLUTION_X = 75` and integer
`POINT_SIZE = 100`. -/
def propsC6 : List props_t :=
  [⟨"RESOLUTION_X", false, 75⟩, ⟨"POINT_SIZE", false, 100⟩]

/-- One step of the bounding-box reduction loop at lines 886-904: fold the
next metric into the running `fontbbx` (min of `leftSideBearing`, max of
`rightSideBearing`, `ascent` and `descent`; all other fields keep the values
copied from `metrics[0]`). -/
def fontbbxStep (bbx m : metric_t) : metric_t :=
  { bbx with
    leftSideBearing :=
      if m.leftSideBearing < bbx.leftSideBearing then m.leftSideBearing
      else bbx.leftSideBearing,
    rightSideBearing :=
      if bbx.rightSideBearing < m.rightSideBearing then m.rightSideBearing
      else bbx.rightSideBearing,
    ascent := if bbx.ascent < m.ascent then m.ascent else bbx.ascent,
    descent := if bbx.descent < m.descent then m.descent else bbx.descent }

/-- The whole `fontbbx` computation of lines 885-904: start from
`metrics[0]` and reduce over the remaining metrics. -/
def computeFontbbx (m0 : metric_t) (rest : List metric_t) : metric_t :=
  rest.foldl fontbbxStep m0

/-- Minimum of `x` and the elements of `l` (specification-side reduction used
to state the bounding-box claim). -/
def listMinI (x : Int) (l : List Int) : Int := l.foldl min x

/-- Maximum of `x` and the elements of `l` (specification-side reduction used
to state the bounding-box claim). -/
def listMaxI (x : Int) (l : List Int) : Int := l.foldl max x

/-- The nibble-reversal table of `bit_order_invert` (lines 395-396). -/
def invertTable : List Nat := [0, 8, 4, 12, 2, 10, 6, 14, 1, 9, 5, 13, 3, 11, 7, 15]

/-- Per-byte bit-order reversal from line 399:
`(invert[b & 15] << 4) | invert[(b >> 4) & 15]`; both table entries are below
16, so the `|` of the shifted value and the low nibble is an addition. -/
def invByte (b : Nat) : Nat :=
  (invertTable.getD (b % 16) 0) * 16 + invertTable.getD (b / 16 % 16) 0

/-- Buffer-wide bit-order inversion from `bit_order_invert` (lines 393-401). -/
def bit_order_invert (data : List Nat) : List Nat := data.map invByte

/-- From `two_byte_swap` (lines 402-411): `size &= ~1` then swap each byte
pair; a trailing odd byte is left in place. -/
def two_byte_swap : List Nat → List Nat
  | a :: b :: rest => b :: a :: two_byte_swap rest
  | l => l

/-- From `four_byte_swap` (lines 412-424): `size &= ~3` then reverse each
4-byte group (`data[i] ↔ data[i+3]`, `data[i+1] ↔ data[i+2]`); up to three
trailing bytes are left in place. -/
def four_byte_swap : List Nat → List Nat
  | a :: b :: c :: d :: rest => d :: c :: b :: a :: four_byte_swap rest
  | l => l

/-- Truncation of a filename at its last `.`, the effect of lines 1162-1163:
`period = strrchr(ifilename, '.'); if (period != NULL) *period = '\0';`.
If the name has no `.` it is unchanged; otherwise everything from the last
`.` on is cut off. -/
def truncAtLastDot (l : List Char) : List Char :=
  match l.reverse.dropWhile (fun c => c ≠ '.') with
  | [] => l
  | _ :: rest => rest.reverse

/-- The font-name emission sequence of lines 1161-1165.  `strdup` copies the
current contents of `ifilename` into `fontname`; the subsequent `*period =
'\0'` mutates the `ifilename` buffer, not the copy; `fprintf` then prints
`fontname`.  The first component is the printed name, the second the final
contents of `ifilename`. -/
def emit_fontname (ifilename : List Char) : List Char × List Char :=
  let fontname := ifilename
  let ifilename := truncAtLastDot ifilename
  (fontname, ifilename)

/-! ## Theorems -/

/-- C7 counterexample: as stated, monotonicity in `bits` fails on the code,
because the padded byte count is narrowed to the `int16` return type:
`bytesPerRow(262144, 1)` is `32768` before narrowing and `-32768` after,
below `bytesPerRow(8, 1) = 1` although `8 ≤ 262144`. -/
theorem C7_counterexample :
    (8 : Nat) ≤ 262144 ∧ bytesPerRow 262144 1 < bytesPerRow 8 1 := by decide

/-- C7 (amended): for pad in {1,2,4,8}, `bytesPerRow bits pad` is always a
multiple of `pad`, and it is non-decreasing in `bits` as long as the padded
byte count fits the `int16` return type (which holds whenever the larger bit
count is at most 262080). -/
theorem C7_amended :
    ∀ (b1 b2 pad : Nat), (pad = 1 ∨ pad = 2 ∨ pad = 4 ∨ pad = 8) →
    ((pad : Int) ∣ bytesPerRow b1 pad) ∧
      (b1 ≤ b2 → b2 ≤ 262080 → bytesPerRow b1 pad ≤ bytesPerRow b2 pad) := by
  intro b1 b2 pad hpad
  rcases hpad with h | h | h | h <;> subst h <;>
    refine ⟨?_, fun hle hub => ?_⟩ <;>
    simp only [bytesPerRow, bytesPerRowNat, toInt16] <;>
    norm_num <;> omega

/-- C7 witness: concrete instance of the amended theorem at
`bits₁ = 3 ≤ bits₂ = 10`, `pad = 2`. -/
theorem C7_witness :
    ((2 : Int) ∣ bytesPerRow 3 2) ∧ bytesPerRow 3 2 ≤ bytesPerRow 10 2 := by
  have h := C7_amended 3 10 2 (Or.inr (Or.inl rfl))
  exact ⟨h.1, h.2 (by decide) (by decide)⟩

/-- C2 counterexample: with `nMetrics = 1` and `nBitmaps = 2` the two counts
differ, yet the check at lines 923-924 passes (no fatal abort), because it
only enforces `nMetrics ≤ nBitmaps`. -/
theorem C2_counterexample :
    bitmapsCountCheck 1 2 = true ∧ (2 : Int) ≠ 1 := by decide

/-- C2 (amended): the Bitmaps-section count check aborts fatally exactly when
the glyph count read from the section is less than the Metrics glyph count;
a count greater than or equal to the Metrics count is accepted (equality is
not enforced). -/
theorem C2_amended :
    ∀ (nMetrics nBitmaps : Int),
    (bitmapsCountCheck nMetrics nBitmaps = false ↔ nBitmaps < nMetrics) := by
  intro a b
  simp only [bitmapsCountCheck, check_int32_min, decide_eq_false_iff_not, not_le]

/-- C9: the 2-byte swap composed with itself is the identity (helper). -/
theorem two_byte_swap_invol : ∀ l : List Nat, two_byte_swap (two_byte_swap l) = l
  | [] => rfl
  | [_] => rfl
  | _ :: _ :: rest => by
    simp only [two_byte_swap]
    rw [two_byte_swap_invol rest]

/-- C9: the 4-byte swap composed with itself is the identity (helper). -/
theorem four_byte_swap_invol : ∀ l : List Nat, four_byte_swap (four_byte_swap l) = l
  | [] => rfl
  | [_] => rfl
  | [_, _] => rfl
  | [_, _, _] => rfl
  | _ :: _ :: _ :: _ :: rest => by
    simp only [four_byte_swap]
    rw [four_byte_swap_invol rest]

/-- C9: the 2-byte swap leaves the bytes past the largest multiple of 2 not
exceeding the length untouched (helper). -/
theorem two_byte_swap_drop :
    ∀ l : List Nat,
    (two_byte_swap l).drop (2 * (l.length / 2)) = l.drop (2 * (l.length / 2))
  | [] => rfl
  | [_] => rfl
  | a :: b :: rest => by
    have ih := two_byte_swap_drop rest
    have hlen : 2 * ((a :: b :: rest).length / 2) = 2 * (rest.length / 2) + 1 + 1 := by
      simp only [List.length_cons]
      omega
    rw [show two_byte_swap (a :: b :: rest) = b :: a :: two_byte_swap rest from rfl,
      hlen]
    simp only [List.drop_succ_cons]
    exact ih

/-- C9: the 4-byte swap leaves the bytes past the largest multiple of 4 not
exceeding the length untouched (helper). -/
theorem four_byte_swap_drop :
    ∀ l : List Nat,
    (four_byte_swap l).drop (4 * (l.length / 4)) = l.drop (4 * (l.length / 4))
  | [] => rfl
  | [_] => rfl
  | [_, _] => rfl
  | [_, _, _] => rfl
  | a :: b :: c :: d :: rest => by
    have ih := four_byte_swap_drop rest
    have hlen : 4 * ((a :: b :: c :: d :: rest).length / 4)
        = 4 * (rest.length / 4) + 1 + 1 + 1 + 1 := by
      simp only [List.length_cons]
      omega
    rw [show four_byte_swap (a :: b :: c :: d :: rest)
        = d :: c :: b :: a :: four_byte_swap rest from rfl, hlen]
    simp only [List.drop_succ_cons]
    exact ih

/-- C9: for every byte buffer, applying the 2-byte group swap (respectively
the 4-byte group swap) twice reproduces the original buffer, and a single
application never modifies the trailing bytes past the largest multiple of 2
(respectively 4) not exceeding the buffer length. -/
theorem C9_swaps :
    ∀ l : List Nat,
    two_byte_swap (two_byte_swap l) = l ∧
    four_byte_swap (four_byte_swap l) = l ∧
    (two_byte_swap l).drop (2 * (l.length / 2)) = l.drop (2 * (l.length / 2)) ∧
    (four_byte_swap l).drop (4 * (l.length / 4)) = l.drop (4 * (l.length / 4)) :=
  fun l => ⟨two_byte_swap_invol l, four_byte_swap_invol l,
    two_byte_swap_drop l, four_byte_swap_drop l⟩

set_option maxRecDepth 8192 in
/-- C8 helper: per-byte nibble reversal is an involution on byte values. -/
theorem invByte_invByte_fin : ∀ b : Fin 256, invByte (invByte b.val) = b.val := by
  decide

/-- C8: for every byte buffer (all elements below 256), applying the
bit-order inversion pass twice reproduces the original buffer. -/
theorem C8_invert_involution :
    ∀ data : List Nat, (∀ b ∈ data, b < 256) →
    bit_order_invert (bit_order_invert data) = data := by
  intro data
  induction data with
  | nil => intro _; rfl
  | cons b rest ih =>
    intro h
    have hb : invByte (invByte b) = b :=
      invByte_invByte_fin ⟨b, h b (List.mem_cons_self b rest)⟩
    have hr := ih (fun x hx => h x (List.mem_cons_of_mem b hx))
    simp only [bit_order_invert, List.map_cons] at hr ⊢
    rw [hb, hr]

/-- C8 witness: the involution at the concrete buffer `[90, 255, 0, 1]`. -/
theorem C8_witness :
    bit_order_invert (bit_order_invert [90, 255, 0, 1]) = [90, 255, 0, 1] :=
  C8_invert_involution [90, 255, 0, 1] (by decide)

/-- C3 counterexample: the compressed-form metric decoder does not consume
exactly four bytes.  A four-byte stream is exhausted before the record is
complete (the fatal `unexpected eof` path), and on a five-byte stream the
decoder succeeds leaving nothing over, so it consumed five bytes, not four. -/
theorem C3_counterexample :
    read_compressed_metric [1, 2, 3, 4] = none ∧
    (read_compressed_metric [128, 128, 128, 128, 128]).map (fun p => p.2)
      = some [] := by decide

/-- C3 (amended): decoding one compressed-form metric consumes exactly five
unsigned bytes, each biased by -128 (in the order left bearing, right
bearing, character width, ascent, descent), sets `attributes` to 0, and
yields the same logical `metric_t` record shape as the full 6-field form. -/
theorem C3_amended :
    ∀ (b1 b2 b3 b4 b5 : Nat) (rest : List Nat),
    b1 < 256 → b2 < 256 → b3 < 256 → b4 < 256 → b5 < 256 →
    read_compressed_metric (b1 :: b2 :: b3 :: b4 :: b5 :: rest) =
      some (⟨(b1 : Int) - 128, (b2 : Int) - 128, (b3 : Int) - 128,
             (b4 : Int) - 128, (b5 : Int) - 128, 0⟩, rest) := by
  intro b1 b2 b3 b4 b5 rest h1 h2 h3 h4 h5
  simp only [read_compressed_metric, read_uint8,
    Nat.mod_eq_of_lt h1, Nat.mod_eq_of_lt h2, Nat.mod_eq_of_lt h3,
    Nat.mod_eq_of_lt h4, Nat.mod_eq_of_lt h5]

/-- C3 witness: the amended statement at the concrete five-byte stream
`[0, 255, 130, 129, 128]`. -/
theorem C3_witness :
    read_compressed_metric [0, 255, 130, 129, 128] =
      some (⟨-128, 127, 2, 1, 0, 0⟩, []) :=
  C3_amended 0 255 130 129 128 [] (by decide) (by decide) (by decide)
    (by decide) (by decide)

/-- C4 helper: the reduction loop computes the minimum of all
`leftSideBearing` fields. -/
theorem computeFontbbx_lsb :
    ∀ (rest : List metric_t) (m0 : metric_t),
    (computeFontbbx m0 rest).leftSideBearing =
      listMinI m0.leftSideBearing (rest.map metric_t.leftSideBearing)
  | [], _ => rfl
  | m :: rest, m0 => by
    have ih := computeFontbbx_lsb rest (fontbbxStep m0 m)
    show (computeFontbbx (fontbbxStep m0 m) rest).leftSideBearing =
      listMinI m0.leftSideBearing
        (m.leftSideBearing :: rest.map metric_t.leftSideBearing)
    rw [ih]
    show listMinI (fontbbxStep m0 m).leftSideBearing
        (rest.map metric_t.leftSideBearing) =
      listMinI (min m0.leftSideBearing m.leftSideBearing)
        (rest.map metric_t.leftSideBearing)
    congr 1
    show (if m.leftSideBearing < m0.leftSideBearing then m.leftSideBearing
      else m0.leftSideBearing) = min m0.leftSideBearing m.leftSideBearing
    rw [min_def]
    split <;> split <;> omega

/-- C4 helper: the reduction loop computes the maximum of all
`rightSideBearing` fields. -/
theorem computeFontbbx_rsb :
    ∀ (rest : List metric_t) (m0 : metric_t),
    (computeFontbbx m0 rest).rightSideBearing =
      listMaxI m0.rightSideBearing (rest.map metric_t.rightSideBearing)
  | [], _ => rfl
  | m :: rest, m0 => by
    have ih := computeFontbbx_rsb rest (fontbbxStep m0 m)
    show (computeFontbbx (fontbbxStep m0 m) rest).rightSideBearing =
      listMaxI m0.rightSideBearing
        (m.rightSideBearing :: rest.map metric_t.rightSideBearing)
    rw [ih]
    show listMaxI (fontbbxStep m0 m).rightSideBearing
        (rest.map metric_t.rightSideBearing) =
      listMaxI (max m0.rightSideBearing m.rightSideBearing)
        (rest.map metric_t.rightSideBearing)
    congr 1
    show (if m0.rightSideBearing < m.rightSideBearing then m.rightSideBearing
      else m0.rightSideBearing) = max m0.rightSideBearing m.rightSideBearing
    rw [max_def]
    split <;> split <;> omega

/-- C4 helper: the reduction loop computes the maximum of all `ascent`
fields. -/
theorem computeFontbbx_ascent :
    ∀ (rest : List metric_t) (m0 : metric_t),
    (computeFontbbx m0 rest).ascent = listMaxI m0.ascent (rest.map metric_t.ascent)
  | [], _ => rfl
  | m :: rest, m0 => by
    have ih := computeFontbbx_ascent rest (fontbbxStep m0 m)
    show (computeFontbbx (fontbbxStep m0 m) rest).ascent =
      listMaxI m0.ascent (m.ascent :: rest.map metric_t.ascent)
    rw [ih]
    show listMaxI (fontbbxStep m0 m).ascent (rest.map metric_t.ascent) =
      listMaxI (max m0.ascent m.ascent) (rest.map metric_t.ascent)
    congr 1
    show (if m0.ascent < m.ascent then m.ascent else m0.ascent) =
      max m0.ascent m.ascent
    rw [max_def]
    split <;> split <;> omega

/-- C4 helper: the reduction loop computes the maximum of all `descent`
fields. -/
theorem computeFontbbx_descent :
    ∀ (rest : List metric_t) (m0 : metric_t),
    (computeFontbbx m0 rest).descent = listMaxI m0.descent (rest.map metric_t.descent)
  | [], _ => rfl
  | m :: rest, m0 => by
    have ih := computeFontbbx_descent rest (fontbbxStep m0 m)
    show (computeFontbbx (fontbbxStep m0 m) rest).descent =
      listMaxI m0.descent (m.descent :: rest.map metric_t.descent)
    rw [ih]
    show listMaxI (fontbbxStep m0 m).descent (rest.map metric_t.descent) =
      listMaxI (max m0.descent m.descent) (rest.map metric_t.descent)
    congr 1
    show (if m0.descent < m.descent then m.descent else m0.descent) =
      max m0.descent m.descent
    rw [max_def]
    split <;> split <;> omega

/-- Identity range of the 16-bit truncation (helper). -/
theorem toInt16_eq_self (n : Int) (h1 : -32768 ≤ n) (h2 : n ≤ 32767) :
    toInt16 n = n := by
  unfold toInt16
  omega

/-- C4 counterexample: for the one-element metrics array with
`leftSideBearing = -32768`, `rightSideBearing = 32767`,
`ascent = descent = 32767` (all representable `int16` field values, hence
producible by the full-form metrics decoder), the emitter's bounding box has
`widthBits = -1`, not `max(rightSideBearing) - min(leftSideBearing) = 65535`,
and `height = -2`, not `max(ascent) + max(descent) = 65534`: the `int16`
narrowing in `widthBits`/`height` wraps. -/
theorem C4_counterexample :
    metric_t.widthBits (computeFontbbx ⟨-32768, 32767, 0, 32767, 32767, 0⟩ []) = -1 ∧
    listMaxI (32767 : Int) [] - listMinI (-32768 : Int) [] = 65535 ∧
    metric_t.height (computeFontbbx ⟨-32768, 32767, 0, 32767, 32767, 0⟩ []) = -2 ∧
    listMaxI (32767 : Int) [] + listMaxI (32767 : Int) [] = 65534 := by decide

/-- C4 (amended): for every non-empty metrics array `m0 :: rest`, the
assembled font bounding box satisfies `widthBits = max(rightSideBearing) -
min(leftSideBearing)` and `height = max(ascent) + max(descent)` over exactly
the glyphs present (initialized from the first, reduced over the rest),
provided each of those two quantities fits the `int16` in which the source
returns it. -/
theorem C4_fontbbx (m0 : metric_t) (rest : List metric_t)
    (hw : -32768 ≤ listMaxI m0.rightSideBearing (rest.map metric_t.rightSideBearing) -
        listMinI m0.leftSideBearing (rest.map metric_t.leftSideBearing) ∧
      listMaxI m0.rightSideBearing (rest.map metric_t.rightSideBearing) -
        listMinI m0.leftSideBearing (rest.map metric_t.leftSideBearing) ≤ 32767)
    (hh : -32768 ≤ listMaxI m0.ascent (rest.map metric_t.ascent) +
        listMaxI m0.descent (rest.map metric_t.descent) ∧
      listMaxI m0.ascent (rest.map metric_t.ascent) +
        listMaxI m0.descent (rest.map metric_t.descent) ≤ 32767) :
    metric_t.widthBits (computeFontbbx m0 rest) =
      listMaxI m0.rightSideBearing (rest.map metric_t.rightSideBearing) -
        listMinI m0.leftSideBearing (rest.map metric_t.leftSideBearing) ∧
    metric_t.height (computeFontbbx m0 rest) =
      listMaxI m0.ascent (rest.map metric_t.ascent) +
        listMaxI m0.descent (rest.map metric_t.descent) := by
  constructor
  · show toInt16 _ = _
    rw [computeFontbbx_rsb, computeFontbbx_lsb]
    exact toInt16_eq_self _ hw.1 hw.2
  · show toInt16 _ = _
    rw [computeFontbbx_ascent, computeFontbbx_descent]
    exact toInt16_eq_self _ hh.1 hh.2

/-- C4 witness: the amended statement at a concrete two-glyph metrics array,
giving bounding-box width `7 = 5 - (-2)` and height `9 = 7 + 2`. -/
theorem C4_witness :
    metric_t.widthBits (computeFontbbx ⟨0, 5, 0, 3, 1, 0⟩ [⟨-2, 4, 0, 7, 2, 0⟩]) = 7 ∧
    metric_t.height (computeFontbbx ⟨0, 5, 0, 3, 1, 0⟩ [⟨-2, 4, 0, 7, 2, 0⟩]) = 9 := by
  have h := C4_fontbbx ⟨0, 5, 0, 3, 1, 0⟩ [⟨-2, 4, 0, 7, 2, 0⟩]
    (by constructor <;> decide) (by constructor <;> decide)
  refine ⟨?_, ?_⟩
  · rw [h.1]; decide
  · rw [h.2]; decide

/-- C5: for every section type, the locator returns not-found with the cursor
unchanged (and no abort) when no ToC entry matches; when the scan hits a
matching entry `t` (the first one, per `List.find?`), it aborts fatally iff
`t.offset - read_bytes < 0`, and otherwise skips exactly that many bytes,
leaving the cursor at `t.offset`, and reports found. -/
theorem C5_seek (tables : List table_t) (ty rb : Int) :
    ((∀ t ∈ tables, t.type ≠ ty) → seek tables ty rb = SeekResult.notFound rb) ∧
    (∀ t, tables.find? (fun u => u.type == ty) = some t →
      (0 ≤ t.offset - rb → seek tables ty rb = SeekResult.found t.offset) ∧
      (t.offset - rb < 0 → seek tables ty rb = SeekResult.fatalSeek)) := by
  induction tables with
  | nil =>
    refine ⟨fun _ => rfl, fun t h => ?_⟩
    simp [List.find?] at h
  | cons t0 rest ih =>
    by_cases h0 : t0.type = ty
    · refine ⟨fun h => absurd h0 (h t0 (List.mem_cons_self t0 rest)), fun t hf => ?_⟩
      have hb : (t0.type == ty) = true := beq_iff_eq.mpr h0
      simp only [List.find?_cons, hb] at hf
      have ht : t = t0 := (Option.some.inj hf).symm
      subst ht
      constructor
      · intro hge
        show (if t.type = ty then
          if t.offset - rb < 0 then SeekResult.fatalSeek
          else SeekResult.found (rb + (t.offset - rb))
          else seek rest ty rb) = SeekResult.found t.offset
        rw [if_pos h0, if_neg (by omega)]
        congr 1
        omega
      · intro hlt
        show (if t.type = ty then
          if t.offset - rb < 0 then SeekResult.fatalSeek
          else SeekResult.found (rb + (t.offset - rb))
          else seek rest ty rb) = SeekResult.fatalSeek
        rw [if_pos h0, if_pos hlt]
    · have hstep : seek (t0 :: rest) ty rb = seek rest ty rb := by
        show (if t0.type = ty then _ else seek rest ty rb) = seek rest ty rb
        rw [if_neg h0]
      refine ⟨fun h => ?_, fun t hf => ?_⟩
      · rw [hstep]
        exact ih.1 (fun u hu => h u (List.mem_cons_of_mem t0 hu))
      · have hb : (t0.type == ty) = false := beq_eq_false_iff_ne.mpr h0
        simp only [List.find?_cons, hb] at hf
        have h2 := ih.2 t hf
        exact ⟨fun hge => hstep ▸ h2.1 hge, fun hlt => hstep ▸ h2.2 hlt⟩

/-- C5 witness: concrete runs of the locator covering the three behaviours:
not found on an empty ToC, found with a forward skip landing on the entry's
offset, not found leaving the cursor unchanged, and the fatal backward seek. -/
theorem C5_witness :
    seek ([] : List table_t) 1 0 = SeekResult.notFound 0 ∧
    seek [⟨1, 10⟩] 1 4 = SeekResult.found 10 ∧
    seek [⟨1, 10⟩] 2 4 = SeekResult.notFound 4 ∧
    seek [⟨1, 3⟩] 1 4 = SeekResult.fatalSeek := by
  refine ⟨(C5_seek [] 1 0).1 (by simp), ?_, ?_, ?_⟩
  · exact ((C5_seek [⟨1, 10⟩] 1 4).2 ⟨1, 10⟩ (by decide)).1 (by decide)
  · exact (C5_seek [⟨1, 10⟩] 2 4).1 (by decide)
  · exact ((C5_seek [⟨1, 3⟩] 1 4).2 ⟨1, 3⟩ (by decide)).2 (by decide)

/-- C6: with the Swidths section absent, an integer `RESOLUTION_X = 75`, an
integer `POINT_SIZE = 100` and a glyph of `characterWidth = 10`, the computed
fallback swidth equals the truncation of the closed-form value
`characterWidth / (resolutionX / 72.27) / ((pointSizeTenths / 10) / 1000)`,
namely `963`. -/
theorem C6_swidth :
    computeSwidthFallback propsC6 10 =
      some (ratTrunc ((10 : ℚ) / ((75 : ℚ) / ((7227 : ℚ) / 100)) /
        (((100 : ℚ) / 10) / 1000))) ∧
    computeSwidthFallback propsC6 10 = some 963 := by
  have hcomp : computeSwidthFallback propsC6 10 =
      some (ratTrunc ((10 : ℚ) / ((75 : ℚ) / ((7227 : ℚ) / 100)) /
        (((100 : ℚ) / 10) / 1000))) := by
    simp [computeSwidthFallback, computeRx, propsC6, get_property_value]
  have hval : ((10 : ℚ) / ((75 : ℚ) / ((7227 : ℚ) / 100)) /
      (((100 : ℚ) / 10) / 1000)) = 4818 / 5 := by norm_num
  have hfloor : ratTrunc ((10 : ℚ) / ((75 : ℚ) / ((7227 : ℚ) / 100)) /
      (((100 : ℚ) / 10) / 1000)) = 963 := by
    simp only [ratTrunc, hval]
    rw [if_pos (by norm_num)]
    rw [Int.floor_eq_iff]
    norm_num
  exact ⟨hcomp, by rw [hcomp, hfloor]⟩

/-- C10 helper: if no property has the requested name, the integer lookup
returns the in-band sentinel `-1`. -/
theorem get_property_value_absent :
    ∀ (props : List props_t) (nm : String), (∀ p ∈ props, p.name ≠ nm) →
    get_property_value props nm = some (-1)
  | [], _, _ => rfl
  | p :: rest, nm, h => by
    have hp : p.name ≠ nm := h p (List.mem_cons_self p rest)
    have ih := get_property_value_absent rest nm
      (fun q hq => h q (List.mem_cons_of_mem p hq))
    simp only [get_property_value, if_neg hp]
    exact ih

/-- C10 helper: appending a present integer property of value `-1` to a list
in which the name is absent gives the same lookup result as the absent case. -/
theorem get_property_value_append_absent :
    ∀ (props : List props_t) (nm : String), (∀ p ∈ props, p.name ≠ nm) →
    get_property_value (props ++ [⟨nm, false, -1⟩]) nm = some (-1)
  | [], nm, _ => by simp [get_property_value]
  | p :: rest, nm, h => by
    have hp : p.name ≠ nm := h p (List.mem_cons_self p rest)
    have ih := get_property_value_append_absent rest nm
      (fun q hq => h q (List.mem_cons_of_mem p hq))
    simp only [List.cons_append, get_property_value, if_neg hp]
    exact ih

/-- C10: when no property matches the queried name, the fetch-as-integer
query returns the in-band sentinel `-1`, so an absent integer property is
indistinguishable from a present integer property of value `-1`; in
particular an absent `RESOLUTION_X` yields `-1` and so makes the
non-positive-resolution fallback branch of the swidth computation fire. -/
theorem C10_sentinel :
    ∀ (props : List props_t) (nm : String), (∀ p ∈ props, p.name ≠ nm) →
    get_property_value props nm = some (-1) ∧
    get_property_value props nm = get_property_value (props ++ [⟨nm, false, -1⟩]) nm ∧
    (nm = "RESOLUTION_X" → usesResolutionFallback props = some true) := by
  intro props nm h
  refine ⟨get_property_value_absent props nm h, ?_, ?_⟩
  · rw [get_property_value_absent props nm h,
      get_property_value_append_absent props nm h]
  · intro he
    subst he
    have h1 := get_property_value_absent props "RESOLUTION_X" h
    simp [usesResolutionFallback, h1]

/-- C10 witness: the sentinel behaviour at the empty property list and the
name `RESOLUTION_X`. -/
theorem C10_witness :
    get_property_value [] "RESOLUTION_X" = some (-1) ∧
    get_property_value [] "RESOLUTION_X" =
      get_property_value [⟨"RESOLUTION_X", false, -1⟩] "RESOLUTION_X" ∧
    usesResolutionFallback [] = some true := by
  have h := C10_sentinel [] "RESOLUTION_X" (by simp)
  exact ⟨h.1, by simpa using h.2.1, h.2.2 rfl⟩

/-- C1: evaluation of the font-name emission at the failing input `"a.pcf"`.
The name printed by line 1165 is the `strdup` copy taken before the
extension strip, so it is the full filename `"a.pcf"`; the truncation of
lines 1162-1163 (which yields `"a"`, the value the claim and spec describe)
is applied to the `ifilename` buffer instead and never reaches the output.
The final conjunct shows the printed name of every run is the unstripped
input filename. -/
theorem C1_code_eval :
    (emit_fontname ('a' :: '.' :: 'p' :: 'c' :: 'f' :: [])).1 =
      'a' :: '.' :: 'p' :: 'c' :: 'f' :: [] ∧
    truncAtLastDot ('a' :: '.' :: 'p' :: 'c' :: 'f' :: []) = ['a'] ∧
    (emit_fontname ('a' :: '.' :: 'p' :: 'c' :: 'f' :: [])).1 ≠ ['a'] ∧
    ∀ l : List Char, (emit_fontname l).1 = l := by
  exact ⟨by decide, by decide, by decide, fun l => rfl⟩
